import Mathlib

/-!
Shallow embedding of the route-handler pipeline of leaonline:http-factory
(file http-factory.js).  JavaScript objects are modelled as finite partial
maps from string keys to values, living in an explicit heap of addresses so
that in-place mutation (Object.assign on req.query / req.body) and fresh
allocation (Object.assign with a literal empty-object target) can be told
apart.  The generated connect middleware is modelled as a pure function from
a heap, a request and a response to a pipeline result that also records an
observation trace (was the validator run, was the user handler invoked, how
often was the continuation called, which errors were passed to the error
hook).
-/

/-- A JavaScript runtime value, as far as the pipeline inspects values:
undefined vs string vs anything else; a date constructor witnesses the
superset-of-JSON (EJSON) serializer. -/
inductive JVal where
  | undefined
  | null
  | boolv (b : Bool)
  | num (n : Int)
  | str (s : String)
  | date (ms : Int)
deriving DecidableEq, Repr

/-- A thrown JavaScript error; the pipeline only reads its message. -/
structure JSError where
  message : String
deriving DecidableEq, Repr

/-- A JavaScript object as a partial map: none means the key is absent,
some JVal.undefined means the key is present with value undefined. -/
abbrev Obj := String → Option JVal

def emptyObj : Obj := fun _ => none

/-- Semantics of Object.assign(target, src) restricted to two arguments:
keys of src win over keys of target. -/
def jsAssign (target src : Obj) : Obj :=
  fun k => match src k with
  | some v => some v
  | none => target k

/-- A heap of JavaScript objects addressed by naturals; next is the first
unused address. -/
structure Heap where
  store : Nat → Obj
  next : Nat

/-- Allocate a fresh object (an Object.assign with a literal target). -/
def Heap.alloc (h : Heap) (o : Obj) : Heap × Nat :=
  ({ store := fun a => if a = h.next then o else h.store a, next := h.next + 1 }, h.next)

/-- Overwrite the object stored at an existing address (in-place mutation). -/
def Heap.set (h : Heap) (a : Nat) (o : Obj) : Heap :=
  { h with store := fun b => if b = a then o else h.store b }

/-- The raw connect request: its HTTP method and the heap addresses of the
query and body objects produced by the body-parsing middleware. -/
structure Request where
  method : String
  query : Nat
  body : Nat

/-- The connect response as far as the pipeline writes it: writeHead sets
the status (and optionally the Content-Type header) and marks the headers
as sent; end sets the body. -/
structure Response where
  status : Option Nat := none
  contentType : Option String := none
  headerSent : Bool := false
  body : Option String := none
deriving DecidableEq, Repr

def Response.writeHead (res : Response) (code : Nat) (ct : Option String) : Response :=
  { res with
    status := some code
    contentType := match ct with | some c => some c | none => res.contentType
    headerSent := true }

/-- res.end(b): a missing argument ends the response with an empty body. -/
def Response.endWith (res : Response) (b : Option String) : Response :=
  { res with body := some (b.getD "") }

/-- ASCII lowercasing of a character, as String.prototype.toLowerCase
acts on the ASCII method names the pipeline compares. -/
def charLower (c : Char) : Char :=
  if c.toNat ≥ 65 ∧ c.toNat ≤ 90 then Char.ofNat (c.toNat + 32) else c

/-- method.toLowerCase() on ASCII strings. -/
def jsToLower (s : String) : String :=
  String.mk (s.data.map charLower)

/-- isPreflight from http-factory.js line 5: the method compared to
options after lowercasing. -/
def isPreflight (req : Request) : Bool :=
  jsToLower req.method == "options"

/-- JSON.stringify emits a key only when its value is not undefined; the
pipeline only ever serializes string-valued fields here. -/
def jsonField (name : String) (v : Option String) : Option String :=
  v.map (fun s => "\"" ++ name ++ "\":\"" ++ s ++ "\"")

/-- Serialization of the error body object with keys title, description,
info in that order, absent fields omitted as JSON.stringify does. -/
def errorBodyString (title description info : Option String) : String :=
  "\x7b" ++
    String.intercalate ","
      (([jsonField "title" title, jsonField "description" description,
         jsonField "info" info]).filterMap id) ++
  "\x7d"

/-- The EJSON serializer on the modelled values: a superset of JSON that
also round-trips dates. -/
def ejsonStringify : JVal → String
  | JVal.undefined => ""
  | JVal.null => "null"
  | JVal.boolv b => cond b "true" "false"
  | JVal.num n => toString n
  | JVal.str s => "\"" ++ s ++ "\""
  | JVal.date ms => "\x7b\"$date\":" ++ toString ms ++ "\x7d"

/-- The argument object of handleError and of the environment error
operation. -/
structure ErrorArgs where
  error : Option JSError := none
  title : Option String := none
  description : Option String := none
  code : Option Nat := none
  info : Option String := none
deriving Repr

/-- code or 500: JavaScript truthiness on the status code (0 is falsy). -/
def statusOrDefault (code : Option Nat) : Nat :=
  match code with
  | some c => if c = 0 then 500 else c
  | none => 500

/-- info or (error and error.message): JavaScript truthiness on the info
string (the empty string is falsy) with the error message as fallback;
when neither yields a truthy value the info field is undefined and is
omitted from the serialized body. -/
def resolveInfo (info : Option String) (error : Option JSError) : Option String :=
  match info with
  | some s => if s = "" then error.map JSError.message else some s
  | none => error.map JSError.message

/-- handleError from http-factory.js lines 9-17: write the status (code or
500) with Content-Type application/json and end with the serialized
title/description/info body. -/
def handleError (res : Response) (args : ErrorArgs) : Response :=
  (res.writeHead (statusOrDefault args.code) (some "application/json")).endWith
    (some (errorBodyString args.title args.description (resolveInfo args.info args.error)))

/-- getRequestParams from http-factory.js lines 49-60: switch on the
lowercased method; POST, PUT, PATCH copy the body, GET copies the query,
anything else shallow-merges query then body into a fresh object. -/
def getRequestParams (h : Heap) (req : Request) : Heap × Nat :=
  let m := jsToLower req.method
  if m = "post" ∨ m = "put" ∨ m = "patch" then
    h.alloc (jsAssign emptyObj (h.store req.body))
  else if m = "get" then
    h.alloc (jsAssign emptyObj (h.store req.query))
  else
    h.alloc (jsAssign (jsAssign emptyObj (h.store req.query)) (h.store req.body))

/-- addRequestParams from http-factory.js lines 62-75: merge the object
into body (POST, PUT, PATCH) or query (GET) in place, returning the
mutated container; for any other method mutate both and return a fresh
merged view. -/
def addRequestParams (h : Heap) (req : Request) (obj : Obj) : Heap × Nat :=
  let m := jsToLower req.method
  if m = "post" ∨ m = "put" ∨ m = "patch" then
    (h.set req.body (jsAssign (h.store req.body) obj), req.body)
  else if m = "get" then
    (h.set req.query (jsAssign (h.store req.query) obj), req.query)
  else
    let h1 := h.set req.query (jsAssign (h.store req.query) obj)
    let h2 := h1.set req.body (jsAssign (h1.store req.body) obj)
    h2.alloc (jsAssign (jsAssign emptyObj (h2.store req.query)) (h2.store req.body))

/-- The environment data operation from http-factory.js lines 190-196:
with no (or a falsy) argument return the current request-params address;
with an object argument delegate to addRequestParams and return its
result, which becomes the new current request params. -/
def environmentData (h : Heap) (req : Request) (requestParams : Nat) (value : Option Obj) :
    Heap × Nat :=
  match value with
  | some v => addRequestParams h req v
  | none => (h, requestParams)

/-- An onError hook as configured by the caller: it receives the error,
the route method and the route path, and may itself fail (modelled by the
Except) or return any value. -/
abbrev HookFn := Option JSError → String → Option String → Except JSError JVal

/-- The effective error hook of lines 93 and 119: the route-local onError
if present, else the factory-level onError, else a no-op. -/
def effectiveErrorHook (routeOnError factoryOnError : Option HookFn) : HookFn :=
  routeOnError.getD (factoryOnError.getD (fun _ _ _ => Except.ok JVal.undefined))

/-- The environment error operation from http-factory.js lines 179-182:
fire the (async, un-awaited) error hook, discard its outcome, and finalize
the response through handleError; the second component records which error
value was handed to the hook. -/
def environmentError (hook : HookFn) (method : String) (path : Option String)
    (res : Response) (args : ErrorArgs) : Response × List (Option JSError) :=
  let _hookOutcome := hook args.error method path
  (handleError res args, [args.error])

/-- An opaque caller-defined schema description. -/
abbrev SchemaDesc := List (String × JVal)

/-- A validator object built by a schema factory; its validate operation
either returns normally or fails with an error carrying a message. -/
structure ValidatorObj where
  validate : Obj → Except JSError Unit

/-- The validator resolution of http-factory.js lines 129-135, together
with the number of schemaFactory invocations it performs (all at
registration time): an explicit validate override is used verbatim;
otherwise a configured schemaFactory is called exactly once on the schema
and per-request validation delegates to the resulting validator; otherwise
validation is a no-op. -/
def mkValidateFn (validateOverride : Option (Obj → Except JSError Unit))
    (schemaFactory : Option (SchemaDesc → ValidatorObj)) (schema : SchemaDesc) :
    (Obj → Except JSError Unit) × Nat :=
  match validateOverride with
  | some v => (v, 0)
  | none =>
    match schemaFactory with
    | some f =>
      let validationSchema := f schema
      (fun document => validationSchema.validate document, 1)
    | none => (fun _ => Except.ok (), 0)

/-- Per-route state captured by the generated middleware closure: the
route method and path (used for the hook and the log tag) and the resolved
validate function. -/
structure RouteState where
  method : String := ""
  path : Option String := none
  validateFn : Obj → Except JSError Unit

/-- What the user handler did when invoked: it either returned a value
(undefined when it returned nothing) or threw synchronously. -/
inductive HandlerOutcome where
  | ret (v : JVal)
  | throw (e : JSError)
deriving Repr

/-- The observable behavior of a user run function: given the heap, the
request and the response it may mutate objects (for instance through the
environment data operation), may write the response itself, calls the
wrapped continuation some number of times, and finally returns or throws.
The third component counts its calls of the next wrapper. -/
abbrev RunEffect := Heap → Request → Response → Heap × Response × Nat × HandlerOutcome

/-- Result of one invocation of the generated middleware, with the
observation trace used to state the specification: how often the
underlying continuation ended up invoked, whether parameters were
extracted, whether the validator ran, whether the user handler was
invoked, and which error values were handed to the error hook. -/
structure PipelineResult where
  heap : Heap
  res : Response
  nextCalls : Nat
  paramsExtracted : Bool
  validatorCalled : Bool
  handlerInvoked : Bool
  hookErrors : List (Option JSError)

/-- The generated route middleware of http-factory.js lines 137-236.
Preflight requests are answered 200 with an empty body at once.  Otherwise
parameters are extracted and validated; a validation failure fires the
error hook (result discarded) and produces the fixed 400 response.  Then
the user handler runs; a synchronous throw fires the hook and produces the
fixed 500 response.  Otherwise the finalize decision table runs: nothing
further if the continuation was called or headers were sent, a delegating
next() call if the returned value is undefined, and success formatting
(status 200, application/json, string verbatim or EJSON serialization)
for any other value. -/
def handler (route : RouteState) (run : RunEffect) (hook : HookFn)
    (h : Heap) (req : Request) (res : Response) : PipelineResult :=
  if isPreflight req then
    { heap := h, res := (res.writeHead 200 none).endWith none, nextCalls := 0,
      paramsExtracted := false, validatorCalled := false, handlerInvoked := false,
      hookErrors := [] }
  else
    let extracted := getRequestParams h req
    let h1 := extracted.1
    let requestParams := extracted.2
    match route.validateFn (h1.store requestParams) with
    | Except.error validationError =>
      let _hookOutcome := hook (some validationError) route.method route.path
      { heap := h1,
        res := handleError res
          { error := some validationError, code := some 400,
            title := some "Bad Request",
            description := some "Malformed query or body." },
        nextCalls := 0, paramsExtracted := true, validatorCalled := true,
        handlerInvoked := false, hookErrors := [some validationError] }
    | Except.ok _ =>
      let invoked := run h1 req res
      let h2 := invoked.1
      let res2 := invoked.2.1
      let wrapperCalls := invoked.2.2.1
      match invoked.2.2.2 with
      | HandlerOutcome.throw invocationError =>
        let _hookOutcome := hook (some invocationError) route.method route.path
        { heap := h2,
          res := handleError res2
            { error := some invocationError, code := some 500,
              title := some "Internal Server Error",
              description := some "An unintended error occurred." },
          nextCalls := wrapperCalls, paramsExtracted := true, validatorCalled := true,
          handlerInvoked := true, hookErrors := [some invocationError] }
      | HandlerOutcome.ret result =>
        if wrapperCalls ≠ 0 ∨ res2.headerSent = true then
          { heap := h2, res := res2, nextCalls := wrapperCalls,
            paramsExtracted := true, validatorCalled := true, handlerInvoked := true,
            hookErrors := [] }
        else if result = JVal.undefined then
          { heap := h2, res := res2, nextCalls := wrapperCalls + 1,
            paramsExtracted := true, validatorCalled := true, handlerInvoked := true,
            hookErrors := [] }
        else
          { heap := h2,
            res := (res2.writeHead 200 (some "application/json")).endWith
              (some (match result with
                     | JVal.str s => s
                     | v => ejsonStringify v)),
            nextCalls := wrapperCalls, paramsExtracted := true, validatorCalled := true,
            handlerInvoked := true, hookErrors := [] }

/-- A value sitting in a field of a route declaration object, as far as
the registration-time checks discriminate values: functions are opaque and
carry an identifier so that registrations can be traced back to fields. -/
inductive FieldVal where
  | fn (id : Nat)
  | str (s : String)
  | obj
  | num (n : Int)
  | boolv (b : Bool)
deriving DecidableEq, Repr

/-- A route declaration object: named fields in insertion order. -/
abbrev RouteDecl := List (String × FieldVal)

/-- First value bound to a name in the declaration (JavaScript objects
hold each key once). -/
def lookupField (decl : RouteDecl) (name : String) : Option FieldVal :=
  (decl.find? (fun p => p.1 == name)).map (fun p => p.2)

/-- The names consumed by the destructuring pattern of routeHandler
(http-factory.js line 111); every other field lands in the middleware
rest object. -/
def reservedFields : List String :=
  ["path", "schema", "method", "run", "validate", "onError"]

/-- check(x, Match.Maybe(String)): absent or a string. -/
def fieldIsMaybeString : Option FieldVal → Bool
  | none => true
  | some (FieldVal.str _) => true
  | some _ => false

/-- check(x, Match.Maybe(Function)): absent or a function. -/
def fieldIsMaybeFn : Option FieldVal → Bool
  | none => true
  | some (FieldVal.fn _) => true
  | some _ => false

/-- check(x, Function): a function. -/
def fieldIsFn : Option FieldVal → Bool
  | some (FieldVal.fn _) => true
  | _ => false

/-- JavaScript truthiness of a field value. -/
def fieldTruthy : FieldVal → Bool
  | FieldVal.fn _ => true
  | FieldVal.str s => s ≠ ""
  | FieldVal.obj => true
  | FieldVal.num n => n ≠ 0
  | FieldVal.boolv b => b

/-- The fixed method enumeration of http-factory.js line 6. -/
def httpMethods : List String :=
  ["get", "head", "post", "put", "delete", "options", "trace", "patch"]

/-- isMaybeHttpMethod of line 7: falsy values pass, otherwise the value
must be one of the enumerated method strings. -/
def isMaybeHttpMethodF (v : FieldVal) : Bool :=
  !fieldTruthy v ||
    (match v with
     | FieldVal.str s => httpMethods.contains s
     | _ => false)

/-- The route path after destructuring: the string if one was supplied. -/
def declPath (decl : RouteDecl) : Option String :=
  match lookupField decl "path" with
  | some (FieldVal.str s) => some s
  | _ => none

/-- The route method after destructuring, with the empty-string default of
line 111. -/
def declMethod (decl : RouteDecl) : FieldVal :=
  (lookupField decl "method").getD (FieldVal.str "")

/-- check(schema, isRequiredSchema) of lines 91 and 113: the destructuring
default makes an absent schema the empty object, so with or without a
configured schemaFactory a present value must be an object. -/
def schemaCheckOk (hasSchemaFactory : Bool) (v : Option FieldVal) : Bool :=
  match v.getD FieldVal.obj with
  | FieldVal.obj => true
  | _ => hasSchemaFactory && false

/-- What a registration handed to registerHandler consists of. -/
inductive RegisteredFn where
  | mw (id : Nat)
  | pipelineHandler
deriving DecidableEq, Repr

/-- One registerHandler call: the path and method it was made for and the
function it registers. -/
structure Registration where
  path : Option String
  method : FieldVal
  fn : RegisteredFn
deriving DecidableEq, Repr

/-- The Object.values(middleware).forEach loop of lines 122-125: each rest
field must be a function (check throws otherwise) and is registered for
the route path and method in declaration order. -/
def registerMiddlewares (path : Option String) (method : FieldVal) :
    List (String × FieldVal) → Except String (List Registration)
  | [] => Except.ok []
  | p :: rest =>
    match p.2 with
    | FieldVal.fn i =>
      match registerMiddlewares path method rest with
      | Except.ok rs => Except.ok ({ path := path, method := method, fn := RegisteredFn.mw i } :: rs)
      | Except.error e => Except.error e
    | _ => Except.error "Match error: middleware field must be a Function"

/-- Registration-time behavior of routeHandler (http-factory.js lines
111-125 and 238): run the checks in source order, then register every
non-reserved field as middleware for the route path and method, then
register the generated pipeline handler itself. -/
def routeRegister (hasSchemaFactory : Bool) (decl : RouteDecl) :
    Except String (List Registration) :=
  if !fieldIsMaybeString (lookupField decl "path") then
    Except.error "Match error: path"
  else if !schemaCheckOk hasSchemaFactory (lookupField decl "schema") then
    Except.error "Match error: schema"
  else if !isMaybeHttpMethodF (declMethod decl) then
    Except.error "Match error: method"
  else if !fieldIsMaybeFn (lookupField decl "validate") then
    Except.error "Match error: validate"
  else if !fieldIsMaybeFn (lookupField decl "onError") then
    Except.error "Match error: onError"
  else if !fieldIsFn (lookupField decl "run") then
    Except.error "Match error: run"
  else
    match registerMiddlewares (declPath decl) (declMethod decl)
        (decl.filter (fun p => !(reservedFields.contains p.1))) with
    | Except.error e => Except.error e
    | Except.ok rs =>
      Except.ok (rs ++ [{ path := declPath decl, method := declMethod decl,
                          fn := RegisteredFn.pipelineHandler }])

/-- A query object fixture holding q = 1. -/
def testObjQ : Obj := fun k => if k = "q" then some (JVal.num 1) else none

/-- A body object fixture holding b = 2. -/
def testObjB : Obj := fun k => if k = "b" then some (JVal.num 2) else none

/-- A heap fixture: the query object at address 0, the body object at
address 1. -/
def testHeap : Heap :=
  { store := fun a => if a = 0 then testObjQ else if a = 1 then testObjB else emptyObj,
    next := 2 }

/-- An update object fixture holding a = 7, as passed to the environment
data operation. -/
def vObj : Obj := fun k => if k = "a" then some (JVal.num 7) else none

def getReq : Request := { method := "GET", query := 0, body := 1 }

def postReq : Request := { method := "POST", query := 0, body := 1 }

def optionsReq : Request := { method := "OPTIONS", query := 0, body := 1 }

def freshRes : Response := {}

def noopHook : HookFn := fun _ _ _ => Except.ok JVal.undefined

/-- Error arguments with a supplied empty info string: not null and not
undefined, yet falsy for the JavaScript or-operator. -/
def truthyCounterArgs : ErrorArgs :=
  { error := some { message := "fallback" }, title := some "T", description := some "D",
    code := some 418, info := some "" }

/-- Error arguments with a nonzero code and a nonempty info string. -/
def argsW : ErrorArgs :=
  { error := some { message := "m" }, title := some "T", description := some "D",
    code := some 404, info := some "why" }

/-- A declaration carrying only run and a function-valued onError. -/
def declCE : RouteDecl := [("run", FieldVal.fn 0), ("onError", FieldVal.fn 1)]

/-- A declaration with a path, a method, a run handler and one named
middleware field auth. -/
def declOk : RouteDecl :=
  [("path", FieldVal.str "/p"), ("method", FieldVal.str "get"),
   ("auth", FieldVal.fn 3), ("run", FieldVal.fn 0)]

/-- A route whose validator accepts everything. -/
def okRoute : RouteState :=
  { method := "get", path := some "/p", validateFn := fun _ => Except.ok () }

/-- A route whose validator rejects everything with message nope. -/
def failRoute : RouteState :=
  { method := "get", path := some "/p",
    validateFn := fun _ => Except.error { message := "nope" } }

/-- A run function that touches nothing and returns the string hi. -/
def runReturnsHi : RunEffect :=
  fun h _ res => (h, res, 0, HandlerOutcome.ret (JVal.str "hi"))

/-- A run function that throws an error with message boom. -/
def runThrowsBoom : RunEffect :=
  fun h _ res => (h, res, 0, HandlerOutcome.throw { message := "boom" })

/-- C4: for every incoming request whose HTTP method is OPTIONS (matched
case-insensitively), the generated route handler writes status 200 with an
empty body and terminates before parameter extraction, validation, or
handler invocation, regardless of the route, its validator, the run
function and the error hook. -/
theorem preflight_short_circuits (route : RouteState) (run : RunEffect) (hook : HookFn)
    (h : Heap) (req : Request) (res : Response)
    (hm : jsToLower req.method = "options") :
    (handler route run hook h req res).res.status = some 200
    ∧ (handler route run hook h req res).res.body = some ""
    ∧ (handler route run hook h req res).paramsExtracted = false
    ∧ (handler route run hook h req res).validatorCalled = false
    ∧ (handler route run hook h req res).handlerInvoked = false
    ∧ (handler route run hook h req res).nextCalls = 0 := by
  unfold handler isPreflight
  simp [hm, Response.writeHead, Response.endWith]

theorem preflight_short_circuits_witness :
    (handler okRoute runReturnsHi noopHook testHeap optionsReq freshRes).res.status = some 200
    ∧ (handler okRoute runReturnsHi noopHook testHeap optionsReq freshRes).res.body = some ""
    ∧ (handler okRoute runReturnsHi noopHook testHeap optionsReq freshRes).paramsExtracted = false
    ∧ (handler okRoute runReturnsHi noopHook testHeap optionsReq freshRes).validatorCalled = false
    ∧ (handler okRoute runReturnsHi noopHook testHeap optionsReq freshRes).handlerInvoked = false
    ∧ (handler okRoute runReturnsHi noopHook testHeap optionsReq freshRes).nextCalls = 0 :=
  preflight_short_circuits okRoute runReturnsHi noopHook testHeap optionsReq freshRes rfl

/-- C2: for every request that is not an OPTIONS preflight, if the
validator throws while validating the extracted parameters, the pipeline
hands the validation error to the error hook and writes an HTTP 400
response with Content-Type application/json whose body serializes title
Bad Request, description Malformed query or body., and info equal to the
validator error message; the user handler is never invoked. -/
theorem validation_failure_responds_400 (route : RouteState) (run : RunEffect)
    (hook : HookFn) (h : Heap) (req : Request) (res : Response) (ve : JSError)
    (hpre : isPreflight req = false)
    (hval : route.validateFn
      ((getRequestParams h req).1.store (getRequestParams h req).2) = Except.error ve) :
    (handler route run hook h req res).res.status = some 400
    ∧ (handler route run hook h req res).res.contentType = some "application/json"
    ∧ (handler route run hook h req res).res.body
        = some (errorBodyString (some "Bad Request") (some "Malformed query or body.")
            (some ve.message))
    ∧ (handler route run hook h req res).handlerInvoked = false
    ∧ (handler route run hook h req res).hookErrors = [some ve] := by
  unfold handler
  simp [hpre, hval, handleError, statusOrDefault, resolveInfo,
    Response.writeHead, Response.endWith]

theorem validation_failure_responds_400_witness :
    (handler failRoute runReturnsHi noopHook testHeap getReq freshRes).res.status = some 400
    ∧ (handler failRoute runReturnsHi noopHook testHeap getReq freshRes).res.contentType
        = some "application/json"
    ∧ (handler failRoute runReturnsHi noopHook testHeap getReq freshRes).res.body
        = some (errorBodyString (some "Bad Request") (some "Malformed query or body.")
            (some "nope"))
    ∧ (handler failRoute runReturnsHi noopHook testHeap getReq freshRes).handlerInvoked = false
    ∧ (handler failRoute runReturnsHi noopHook testHeap getReq freshRes).hookErrors
        = [some { message := "nope" }] :=
  validation_failure_responds_400 failRoute runReturnsHi noopHook testHeap getReq freshRes
    { message := "nope" } rfl rfl

/-- C3: for every request in which the user handler throws synchronously,
the pipeline hands the thrown error to the error hook and writes an HTTP
500 response whose JSON body serializes title Internal Server Error,
description An unintended error occurred., and info equal to the exception
message; in particular a thrown message boom yields info boom (see the
witness). -/
theorem handler_throw_responds_500 (route : RouteState) (run : RunEffect)
    (hook : HookFn) (h : Heap) (req : Request) (res : Response)
    (h2 : Heap) (res2 : Response) (wc : Nat) (e : JSError)
    (hpre : isPreflight req = false)
    (hval : route.validateFn
      ((getRequestParams h req).1.store (getRequestParams h req).2) = Except.ok ())
    (hrun : run (getRequestParams h req).1 req res
      = (h2, res2, wc, HandlerOutcome.throw e)) :
    (handler route run hook h req res).res.status = some 500
    ∧ (handler route run hook h req res).res.contentType = some "application/json"
    ∧ (handler route run hook h req res).res.body
        = some (errorBodyString (some "Internal Server Error")
            (some "An unintended error occurred.") (some e.message))
    ∧ (handler route run hook h req res).handlerInvoked = true
    ∧ (handler route run hook h req res).hookErrors = [some e] := by
  unfold handler
  simp [hpre, hval, hrun, handleError, statusOrDefault, resolveInfo,
    Response.writeHead, Response.endWith]

theorem handler_throw_responds_500_witness :
    (handler okRoute runThrowsBoom noopHook testHeap getReq freshRes).res.status = some 500
    ∧ (handler okRoute runThrowsBoom noopHook testHeap getReq freshRes).res.contentType
        = some "application/json"
    ∧ (handler okRoute runThrowsBoom noopHook testHeap getReq freshRes).res.body
        = some (errorBodyString (some "Internal Server Error")
            (some "An unintended error occurred.") (some "boom"))
    ∧ (handler okRoute runThrowsBoom noopHook testHeap getReq freshRes).handlerInvoked = true
    ∧ (handler okRoute runThrowsBoom noopHook testHeap getReq freshRes).hookErrors
        = [some { message := "boom" }] :=
  handler_throw_responds_500 okRoute runThrowsBoom noopHook testHeap getReq freshRes
    (getRequestParams testHeap getReq).1 freshRes 0 { message := "boom" } rfl rfl rfl

/-- C1: after a user handler returns without throwing on a non-preflight
request, the finalize decision table runs in order: if the continuation
was invoked or headers were already sent, nothing further is written; else
an undefined return value makes the pipeline invoke the continuation on
behalf of the handler; else the value is formatted as a success (status
200, Content-Type application/json, a string verbatim, anything else
through the EJSON serializer). -/
theorem finalize_decision_table (route : RouteState) (run : RunEffect)
    (hook : HookFn) (h : Heap) (req : Request) (res : Response)
    (h2 : Heap) (res2 : Response) (wc : Nat) (result : JVal)
    (hpre : isPreflight req = false)
    (hval : route.validateFn
      ((getRequestParams h req).1.store (getRequestParams h req).2) = Except.ok ())
    (hrun : run (getRequestParams h req).1 req res
      = (h2, res2, wc, HandlerOutcome.ret result)) :
    ((wc ≠ 0 ∨ res2.headerSent = true) →
      (handler route run hook h req res).res = res2
      ∧ (handler route run hook h req res).nextCalls = wc)
    ∧ (wc = 0 → res2.headerSent = false → result = JVal.undefined →
      (handler route run hook h req res).res = res2
      ∧ (handler route run hook h req res).nextCalls = 1)
    ∧ (wc = 0 → res2.headerSent = false → result ≠ JVal.undefined →
      (handler route run hook h req res).res.status = some 200
      ∧ (handler route run hook h req res).res.contentType = some "application/json"
      ∧ (∀ s, result = JVal.str s → (handler route run hook h req res).res.body = some s)
      ∧ ((∀ s, result ≠ JVal.str s) →
          (handler route run hook h req res).res.body = some (ejsonStringify result))
      ∧ (handler route run hook h req res).nextCalls = wc) := by
  unfold handler
  simp only [hpre, Bool.false_eq_true, if_false, hval, hrun]
  refine ⟨?_, ?_, ?_⟩
  · intro hc
    rw [if_pos hc]
    exact ⟨rfl, rfl⟩
  · intro hwc hhs hres
    subst hwc
    subst hres
    rw [if_neg (by simp [hhs]), if_pos rfl]
    exact ⟨rfl, rfl⟩
  · intro hwc hhs hres
    subst hwc
    rw [if_neg (by simp [hhs]), if_neg hres]
    refine ⟨rfl, rfl, ?_, ?_, rfl⟩
    · intro s hs
      subst hs
      rfl
    · intro hns
      cases result with
      | undefined => exact absurd rfl hres
      | null => rfl
      | boolv b => rfl
      | num n => rfl
      | str s => exact absurd rfl (hns s)
      | date ms => rfl

theorem finalize_decision_table_witness :
    ((0 ≠ 0 ∨ freshRes.headerSent = true) → True)
    ∧ (handler okRoute runReturnsHi noopHook testHeap getReq freshRes).res.status = some 200
    ∧ (handler okRoute runReturnsHi noopHook testHeap getReq freshRes).res.contentType
        = some "application/json"
    ∧ (handler okRoute runReturnsHi noopHook testHeap getReq freshRes).res.body = some "hi"
    ∧ (handler okRoute runReturnsHi noopHook testHeap getReq freshRes).nextCalls = 0 := by
  have spec := finalize_decision_table okRoute runReturnsHi noopHook testHeap getReq freshRes
    (getRequestParams testHeap getReq).1 freshRes 0 (JVal.str "hi") rfl rfl rfl
  have third := spec.2.2 rfl rfl (by decide)
  exact ⟨fun _ => trivial, third.1, third.2.1, third.2.2.1 "hi" rfl, third.2.2.2.2⟩

/-- The object freshly allocated by Heap.alloc holds exactly the given
map. -/
theorem Heap.alloc_store_new (h : Heap) (o : Obj) :
    ((h.alloc o).1).store (h.alloc o).2 = o := by
  simp [Heap.alloc]

/-- The address returned by getRequestParams is the fresh one. -/
theorem getRequestParams_addr (h : Heap) (req : Request) :
    (getRequestParams h req).2 = h.next := by
  simp only [getRequestParams]
  split
  · rfl
  · split <;> rfl

/-- getRequestParams leaves every existing object untouched. -/
theorem getRequestParams_preserves (h : Heap) (req : Request) (a : Nat)
    (ha : a ≠ h.next) :
    (getRequestParams h req).1.store a = h.store a := by
  simp only [getRequestParams]
  split
  · simp [Heap.alloc, ha]
  · split <;> simp [Heap.alloc, ha]

/-- C5: the parameter extractor produces a fresh mapping (mutating the
result does not mutate the request) with no side effects on the raw
request: for POST, PUT and PATCH a copy of the parsed body, for GET a
copy of the parsed query string, for any other method a shallow merge of
query then body in which body keys win. -/
theorem getRequestParams_spec (h : Heap) (req : Request)
    (hq : req.query < h.next) (hb : req.body < h.next) :
    ((getRequestParams h req).2 ≠ req.query ∧ (getRequestParams h req).2 ≠ req.body)
    ∧ (∀ a, a < h.next → (getRequestParams h req).1.store a = h.store a)
    ∧ ((jsToLower req.method = "post" ∨ jsToLower req.method = "put"
          ∨ jsToLower req.method = "patch") →
        ∀ k, (getRequestParams h req).1.store (getRequestParams h req).2 k
          = h.store req.body k)
    ∧ (jsToLower req.method = "get" →
        ∀ k, (getRequestParams h req).1.store (getRequestParams h req).2 k
          = h.store req.query k)
    ∧ (¬(jsToLower req.method = "post" ∨ jsToLower req.method = "put"
          ∨ jsToLower req.method = "patch") →
       jsToLower req.method ≠ "get" →
        ∀ k, (getRequestParams h req).1.store (getRequestParams h req).2 k
          = match h.store req.body k with
            | some v => some v
            | none => h.store req.query k)
    ∧ (∀ o, ((getRequestParams h req).1.set (getRequestParams h req).2 o).store req.query
          = h.store req.query
        ∧ ((getRequestParams h req).1.set (getRequestParams h req).2 o).store req.body
          = h.store req.body) := by
  have haddr : (getRequestParams h req).2 = h.next := getRequestParams_addr h req
  refine ⟨⟨by omega, by omega⟩, ?_, ?_, ?_, ?_, ?_⟩
  · intro a ha
    exact getRequestParams_preserves h req a (by omega)
  · intro hm k
    simp only [getRequestParams, if_pos hm, Heap.alloc_store_new, jsAssign, emptyObj]
    cases h.store req.body k <;> rfl
  · intro hg k
    have hnp : ¬(jsToLower req.method = "post" ∨ jsToLower req.method = "put"
        ∨ jsToLower req.method = "patch") := by
      rw [hg]; decide
    simp only [getRequestParams, if_neg hnp, if_pos hg, Heap.alloc_store_new, jsAssign,
      emptyObj]
    cases h.store req.query k <;> rfl
  · intro hs1 hs2 k
    simp only [getRequestParams, if_neg hs1, if_neg hs2, Heap.alloc_store_new, jsAssign,
      emptyObj]
    cases h.store req.body k with
    | some v => rfl
    | none => cases h.store req.query k <;> rfl
  · intro o
    have hsq : req.query ≠ (getRequestParams h req).2 := by omega
    have hsb : req.body ≠ (getRequestParams h req).2 := by omega
    constructor
    · simp only [Heap.set, if_neg hsq]
      exact getRequestParams_preserves h req req.query (by omega)
    · simp only [Heap.set, if_neg hsb]
      exact getRequestParams_preserves h req req.body (by omega)

theorem getRequestParams_spec_witness :
    ((getRequestParams testHeap getReq).2 ≠ getReq.query
      ∧ (getRequestParams testHeap getReq).2 ≠ getReq.body)
    ∧ (getRequestParams testHeap getReq).1.store getReq.query = testHeap.store getReq.query
    ∧ (getRequestParams testHeap getReq).1.store (getRequestParams testHeap getReq).2 "q"
        = testHeap.store getReq.query "q" := by
  have spec := getRequestParams_spec testHeap getReq (by decide) (by decide)
  exact ⟨spec.1, spec.2.1 getReq.query (by decide), spec.2.2.2.1 rfl "q"⟩

/-- C6: the environment data operation with no argument returns the
current parameter mapping and leaves the heap alone; with an object
argument it merges the object into the raw request by the per-method
rule (POST, PUT and PATCH update the request body in place, GET updates
the query in place, and any other method updates both and yields a fresh
merged view), returns the resulting mapping, and the merged values are
visible through a fresh parameter extraction by a subsequent handler on
the same request. -/
theorem environmentData_spec (h : Heap) (req : Request) (rp : Nat) (v : Obj)
    (hqb : req.query ≠ req.body) (hq : req.query < h.next) (hb : req.body < h.next) :
    environmentData h req rp none = (h, rp)
    ∧ ((jsToLower req.method = "post" ∨ jsToLower req.method = "put"
          ∨ jsToLower req.method = "patch") →
        (environmentData h req rp (some v)).2 = req.body
        ∧ (environmentData h req rp (some v)).1.store req.body
            = jsAssign (h.store req.body) v
        ∧ (∀ a, a ≠ req.body → (environmentData h req rp (some v)).1.store a = h.store a))
    ∧ (jsToLower req.method = "get" →
        (environmentData h req rp (some v)).2 = req.query
        ∧ (environmentData h req rp (some v)).1.store req.query
            = jsAssign (h.store req.query) v
        ∧ (∀ a, a ≠ req.query → (environmentData h req rp (some v)).1.store a = h.store a))
    ∧ (¬(jsToLower req.method = "post" ∨ jsToLower req.method = "put"
          ∨ jsToLower req.method = "patch") →
       jsToLower req.method ≠ "get" →
        (environmentData h req rp (some v)).1.store req.query
            = jsAssign (h.store req.query) v
        ∧ (environmentData h req rp (some v)).1.store req.body
            = jsAssign (h.store req.body) v
        ∧ (environmentData h req rp (some v)).2 ≠ req.query
        ∧ (environmentData h req rp (some v)).2 ≠ req.body
        ∧ (∀ k, (environmentData h req rp (some v)).1.store
              (environmentData h req rp (some v)).2 k
            = match jsAssign (h.store req.body) v k with
              | some x => some x
              | none => jsAssign (h.store req.query) v k))
    ∧ (∀ k x, v k = some x →
        (getRequestParams (environmentData h req rp (some v)).1 req).1.store
          (getRequestParams (environmentData h req rp (some v)).1 req).2 k = some x) := by
  have hqn : req.query ≠ h.next := by omega
  have hbn : req.body ≠ h.next := by omega
  have hbq : req.body ≠ req.query := Ne.symm hqb
  refine ⟨rfl, ?_, ?_, ?_, ?_⟩
  · intro hm
    simp only [environmentData, addRequestParams, if_pos hm]
    refine ⟨by simp, ?_, ?_⟩
    · simp [Heap.set]
    · intro a ha
      simp [Heap.set, ha]
  · intro hg
    have hnp : ¬(jsToLower req.method = "post" ∨ jsToLower req.method = "put"
        ∨ jsToLower req.method = "patch") := by
      rw [hg]; decide
    simp only [environmentData, addRequestParams, if_neg hnp, if_pos hg]
    refine ⟨by simp, ?_, ?_⟩
    · simp [Heap.set]
    · intro a ha
      simp [Heap.set, ha]
  · intro hs1 hs2
    simp only [environmentData, addRequestParams, if_neg hs1, if_neg hs2]
    refine ⟨?_, ?_, ?_, ?_, ?_⟩
    · simp [Heap.alloc, Heap.set, hqn, hqb, hbq]
    · simp [Heap.alloc, Heap.set, hbn, hqb, hbq]
    · simp only [Heap.alloc, Heap.set]
      omega
    · simp only [Heap.alloc, Heap.set]
      omega
    · intro k
      simp only [Heap.alloc, Heap.set]
      simp [hqb, hbq, hqn, hbn, jsAssign, emptyObj]
      cases hvk : v k with
      | some x => simp [hvk]
      | none =>
        simp [hvk]
        cases h.store req.body k with
        | some y => simp
        | none => cases h.store req.query k <;> simp
  · intro k x hkx
    by_cases hm : jsToLower req.method = "post" ∨ jsToLower req.method = "put"
        ∨ jsToLower req.method = "patch"
    · simp only [environmentData, addRequestParams, if_pos hm, getRequestParams,
        Heap.alloc_store_new, jsAssign, emptyObj, Heap.set]
      simp [jsAssign, hkx]
    · by_cases hg : jsToLower req.method = "get"
      · simp only [environmentData, addRequestParams, if_neg hm, if_pos hg,
          getRequestParams, Heap.alloc_store_new, jsAssign, emptyObj, Heap.set]
        simp [jsAssign, hkx]
      · simp only [environmentData, addRequestParams, getRequestParams, if_neg hm,
          if_neg hg, Heap.alloc, Heap.set, jsAssign, emptyObj]
        simp [jsAssign, emptyObj, hkx, hqn, hbn, hqb, hbq]

theorem environmentData_spec_witness :
    environmentData testHeap getReq 5 none = (testHeap, 5)
    ∧ (environmentData testHeap getReq 5 (some vObj)).2 = getReq.query
    ∧ (getRequestParams (environmentData testHeap getReq 5 (some vObj)).1 getReq).1.store
        (getRequestParams (environmentData testHeap getReq 5 (some vObj)).1 getReq).2 "a"
        = some (JVal.num 7) := by
  have spec := environmentData_spec testHeap getReq 5 vObj (by decide) (by decide) (by decide)
  exact ⟨spec.1, (spec.2.2.1 rfl).1, spec.2.2.2.2 "a" (JVal.num 7) rfl⟩

/-- C7: the effective validator of a route is the explicit validate
function when one is supplied (the schema factory is then never
consulted), else a validator built by exactly one registration-time
schemaFactory call, to whose validate operation every per-request
validation delegates, else a no-op that accepts every parameter
mapping. -/
theorem validator_resolution_spec :
    (∀ v sf schema, mkValidateFn (some v) sf schema = (v, 0))
    ∧ (∀ f schema,
        (∀ d, (mkValidateFn none (some f) schema).1 d = (f schema).validate d)
        ∧ (mkValidateFn none (some f) schema).2 = 1)
    ∧ (∀ schema d, (mkValidateFn none none schema).1 d = Except.ok ()) :=
  ⟨fun _ _ _ => rfl, fun _ _ => ⟨fun _ => rfl, rfl⟩, fun _ _ => rfl⟩

/-- C8 as stated is false on the code: with a supplied info that is the
empty string (not null and not undefined) the written body carries the
fallback error message instead of the supplied info, because the source
uses the or-operator (JavaScript truthiness), not a null check. -/
theorem handleError_truthiness_counterexample :
    (handleError freshRes truthyCounterArgs).body
      = some (errorBodyString (some "T") (some "D") (some "fallback"))
    ∧ (handleError freshRes truthyCounterArgs).body
      ≠ some (errorBodyString (some "T") (some "D") (some "")) := by
  constructor
  · rfl
  · decide

/-- C8 amended: handleError writes Content-Type application/json, status
equal to the code when a nonzero code is supplied and 500 otherwise, and
a body serializing title, description and info, where info is the
supplied info when that is a nonempty string and otherwise falls back to
the error message (omitted when there is no error either); the
environment error operation writes exactly the handleError response. -/
theorem handleError_spec (res : Response) (args : ErrorArgs) :
    (handleError res args).contentType = some "application/json"
    ∧ (∀ c, args.code = some c → c ≠ 0 → (handleError res args).status = some c)
    ∧ ((args.code = none ∨ args.code = some 0) → (handleError res args).status = some 500)
    ∧ (∀ s, args.info = some s → s ≠ "" →
        (handleError res args).body
          = some (errorBodyString args.title args.description (some s)))
    ∧ ((args.info = none ∨ args.info = some "") →
        (handleError res args).body
          = some (errorBodyString args.title args.description
              (args.error.map JSError.message)))
    ∧ (∀ hook method path r0,
        (environmentError hook method path r0 args).1 = handleError r0 args) := by
  refine ⟨rfl, ?_, ?_, ?_, ?_, fun hook method path r0 => rfl⟩
  · intro c hc hc0
    simp [handleError, statusOrDefault, hc, hc0, Response.writeHead, Response.endWith]
  · intro hc
    rcases hc with hc | hc <;>
      simp [handleError, statusOrDefault, hc, Response.writeHead, Response.endWith]
  · intro s hs hs0
    simp [handleError, resolveInfo, hs, hs0, Response.writeHead, Response.endWith]
  · intro hc
    rcases hc with hc | hc <;>
      simp [handleError, resolveInfo, hc, Response.writeHead, Response.endWith]

theorem handleError_spec_witness :
    (handleError freshRes argsW).status = some 404
    ∧ (handleError freshRes argsW).body
        = some (errorBodyString (some "T") (some "D") (some "why")) :=
  ⟨(handleError_spec freshRes argsW).2.1 404 rfl (by decide),
   (handleError_spec freshRes argsW).2.2.2.1 "why" rfl (by decide)⟩

/-- C10: every error hook invocation goes through an async wrapper whose
outcome is discarded, so the whole pipeline result and the environment
error response are identical for any two hooks; in particular a hook
that throws (or rejects) can neither prevent nor alter the written error
response. -/
theorem errorHook_outcome_ignored (route : RouteState) (run : RunEffect)
    (h : Heap) (req : Request) (res : Response) (hook1 hook2 : HookFn)
    (method : String) (path : Option String) (r0 : Response) (args : ErrorArgs) :
    handler route run hook1 h req res = handler route run hook2 h req res
    ∧ (environmentError hook1 method path r0 args).1
        = (environmentError hook2 method path r0 args).1 :=
  ⟨rfl, rfl⟩

/-- On success, every field fed to the middleware loop is a function and
is registered for the given path and method. -/
theorem registerMiddlewares_mem (path : Option String) (method : FieldVal)
    (l : List (String × FieldVal)) (rs : List Registration)
    (h : registerMiddlewares path method l = Except.ok rs) :
    ∀ p ∈ l, ∃ i, p.2 = FieldVal.fn i
      ∧ ({ path := path, method := method, fn := RegisteredFn.mw i } : Registration) ∈ rs := by
  induction l generalizing rs with
  | nil =>
    intro p hp
    cases hp
  | cons q rest ih =>
    intro p hp
    rw [registerMiddlewares] at h
    cases hq : q.2 with
    | fn i =>
      rw [hq] at h
      cases hrec : registerMiddlewares path method rest with
      | ok rs2 =>
        rw [hrec] at h
        simp only [Except.ok.injEq] at h
        subst h
        rcases List.mem_cons.mp hp with hph | hpt
        · subst hph
          exact ⟨i, hq, List.mem_cons_self _ _⟩
        · obtain ⟨j, hj, hmem⟩ := ih rs2 hrec p hpt
          exact ⟨j, hj, List.mem_cons_of_mem _ hmem⟩
      | error e =>
        rw [hrec] at h
        cases h
    | str s => rw [hq] at h; cases h
    | obj => rw [hq] at h; cases h
    | num n => rw [hq] at h; cases h
    | boolv b => rw [hq] at h; cases h

/-- On success, every produced registration stems from a function field
of the loop input and targets the given path and method. -/
theorem registerMiddlewares_mem_inv (path : Option String) (method : FieldVal)
    (l : List (String × FieldVal)) (rs : List Registration)
    (h : registerMiddlewares path method l = Except.ok rs) :
    ∀ r ∈ rs, ∃ p, p ∈ l ∧ ∃ i, p.2 = FieldVal.fn i
      ∧ r = { path := path, method := method, fn := RegisteredFn.mw i } := by
  induction l generalizing rs with
  | nil =>
    rw [registerMiddlewares] at h
    simp only [Except.ok.injEq] at h
    subst h
    intro r hr
    cases hr
  | cons q rest ih =>
    intro r hr
    rw [registerMiddlewares] at h
    cases hq : q.2 with
    | fn i =>
      rw [hq] at h
      cases hrec : registerMiddlewares path method rest with
      | ok rs2 =>
        rw [hrec] at h
        simp only [Except.ok.injEq] at h
        subst h
        rcases List.mem_cons.mp hr with hrh | hrt
        · exact ⟨q, List.mem_cons_self _ _, i, hq, hrh⟩
        · obtain ⟨p, hp, j, hj, hr2⟩ := ih rs2 hrec r hrt
          exact ⟨p, List.mem_cons_of_mem _ hp, j, hj, hr2⟩
      | error e =>
        rw [hrec] at h
        cases h
    | str s => rw [hq] at h; cases h
    | obj => rw [hq] at h; cases h
    | num n => rw [hq] at h; cases h
    | boolv b => rw [hq] at h; cases h

/-- The middleware loop fails when some field holds a non-function. -/
theorem registerMiddlewares_err (path : Option String) (method : FieldVal)
    (l : List (String × FieldVal))
    (hbad : ∃ p, p ∈ l ∧ ∀ i, p.2 ≠ FieldVal.fn i) :
    ∃ m, registerMiddlewares path method l = Except.error m := by
  induction l with
  | nil =>
    obtain ⟨p, hp, _⟩ := hbad
    cases hp
  | cons q rest ih =>
    obtain ⟨p, hp, hnf⟩ := hbad
    rw [registerMiddlewares]
    cases hq : q.2 with
    | fn i =>
      rcases List.mem_cons.mp hp with hph | hpt
      · subst hph
        exact absurd hq (hnf i)
      · obtain ⟨m, hm⟩ := ih ⟨p, hpt, hnf⟩
        rw [hm]
        exact ⟨m, rfl⟩
    | str s => exact ⟨_, rfl⟩
    | obj => exact ⟨_, rfl⟩
    | num n => exact ⟨_, rfl⟩
    | boolv b => exact ⟨_, rfl⟩

/-- C9 as stated is false on the code: onError is not among the five
names the claim lists as reserved, yet a function-valued onError field is
consumed as the route-local error hook and no middleware registration is
made for it: registering declCE yields only the pipeline-handler
registration. -/
theorem onError_not_middleware_counterexample :
    routeRegister false declCE
      = Except.ok [{ path := none, method := FieldVal.str "",
                     fn := RegisteredFn.pipelineHandler }]
    ∧ ({ path := none, method := FieldVal.str "", fn := RegisteredFn.mw 1 } : Registration)
      ∉ [({ path := none, method := FieldVal.str "",
            fn := RegisteredFn.pipelineHandler } : Registration)] := by
  constructor
  · rfl
  · decide

/-- C9 amended: every field whose name is not one of path, schema,
method, run, validate, onError is treated as a named middleware function:
when registration succeeds each such field holds a function and is
registered for the route path and method, every middleware registration
stems from such a field, and a declaration in which such a field holds a
non-function is rejected at registration time, before any request is
served. -/
theorem route_middleware_spec (hasSF : Bool) (decl : RouteDecl) :
    (∀ regs, routeRegister hasSF decl = Except.ok regs →
      (∀ p ∈ decl, p.1 ∉ reservedFields →
        ∃ i, p.2 = FieldVal.fn i
          ∧ ({ path := declPath decl, method := declMethod decl,
               fn := RegisteredFn.mw i } : Registration) ∈ regs)
      ∧ (∀ r ∈ regs, ∀ i, r.fn = RegisteredFn.mw i →
          r.path = declPath decl ∧ r.method = declMethod decl
          ∧ ∃ p, p ∈ decl ∧ p.1 ∉ reservedFields ∧ p.2 = FieldVal.fn i))
    ∧ ((∃ p, p ∈ decl ∧ p.1 ∉ reservedFields ∧ ∀ i, p.2 ≠ FieldVal.fn i) →
        ∃ m, routeRegister hasSF decl = Except.error m) := by
  have part1 : ∀ regs, routeRegister hasSF decl = Except.ok regs →
      (∀ p ∈ decl, p.1 ∉ reservedFields →
        ∃ i, p.2 = FieldVal.fn i
          ∧ ({ path := declPath decl, method := declMethod decl,
               fn := RegisteredFn.mw i } : Registration) ∈ regs)
      ∧ (∀ r ∈ regs, ∀ i, r.fn = RegisteredFn.mw i →
          r.path = declPath decl ∧ r.method = declMethod decl
          ∧ ∃ p, p ∈ decl ∧ p.1 ∉ reservedFields ∧ p.2 = FieldVal.fn i) := by
    intro regs hreg
    rw [routeRegister] at hreg
    split at hreg
    · exact Except.noConfusion hreg
    split at hreg
    · exact Except.noConfusion hreg
    split at hreg
    · exact Except.noConfusion hreg
    split at hreg
    · exact Except.noConfusion hreg
    split at hreg
    · exact Except.noConfusion hreg
    split at hreg
    · exact Except.noConfusion hreg
    split at hreg
    case _ e heq => exact Except.noConfusion hreg
    case _ rs hmw =>
      injection hreg with hregs
      constructor
      · intro p hp hnr
        have hpf : p ∈ decl.filter (fun q => !(reservedFields.contains q.1)) := by
          rw [List.mem_filter]
          exact ⟨hp, by simpa using hnr⟩
        obtain ⟨i, hi, hmem⟩ := registerMiddlewares_mem _ _ _ _ hmw p hpf
        refine ⟨i, hi, ?_⟩
        rw [← hregs]
        exact List.mem_append_left _ hmem
      · intro r hr i hfn
        rw [← hregs] at hr
        rcases List.mem_append.mp hr with hr1 | hr2
        · obtain ⟨p, hp, j, hj, hre⟩ := registerMiddlewares_mem_inv _ _ _ _ hmw r hr1
          subst hre
          simp only [] at hfn
          injection hfn with hji
          subst hji
          rw [List.mem_filter] at hp
          refine ⟨rfl, rfl, p, hp.1, ?_, hj⟩
          have := hp.2
          simpa using this
        · rw [List.mem_singleton] at hr2
          subst hr2
          exact RegisteredFn.noConfusion hfn
  refine ⟨part1, ?_⟩
  rintro ⟨p, hp, hnr, hnf⟩
  cases hx : routeRegister hasSF decl with
  | error m => exact ⟨m, rfl⟩
  | ok regs =>
    obtain ⟨i, hi, _⟩ := (part1 regs hx).1 p hp hnr
    exact absurd hi (hnf i)

theorem route_middleware_spec_witness :
    routeRegister false declOk
      = Except.ok
          [{ path := some "/p", method := FieldVal.str "get", fn := RegisteredFn.mw 3 },
           { path := some "/p", method := FieldVal.str "get",
             fn := RegisteredFn.pipelineHandler }]
    ∧ (∃ i, (("auth", FieldVal.fn 3) : String × FieldVal).2 = FieldVal.fn i
        ∧ ({ path := declPath declOk, method := declMethod declOk,
             fn := RegisteredFn.mw i } : Registration) ∈
          [{ path := some "/p", method := FieldVal.str "get", fn := RegisteredFn.mw 3 },
           { path := some "/p", method := FieldVal.str "get",
             fn := RegisteredFn.pipelineHandler }]) := by
  constructor
  · rfl
  · exact ((route_middleware_spec false declOk).1 _ rfl).1 ("auth", FieldVal.fn 3)
      (by decide) (by decide)
